import Mathlib

/-!
Verification development for the property-replication core of
`assets/Script/sync/SyncUtil.ts` (class `ReplicateObject`, the module-level
`genDiff` entry point with its first-use seeding, and `applyDiff`).

The TypeScript heap of `ReplicateObject` instances is embedded shallowly:
a `Heap` maps object ids (`Nat`) to `ReplicateObject` records, and a slot
holding a nested composite child stores the child's id (`JVal.rep`), which
models a JS object reference.  Recursion through the heap (parent
notification in `propertyChanged`, child recursion in `genDiff`) is fueled;
every concrete scenario below uses fuel strictly larger than the depth of
the object graph, where the fueled functions agree with the source.
-/

/-- Values stored in tracked slots: JS primitives plus a reference to a
nested `ReplicateObject` (composite child), modelled by the child's heap id.
`undef` is the JS `undefined`. -/
inductive JVal where
  | num (n : Int)
  | str (s : String)
  | boolV (b : Bool)
  | undef
  | rep (id : Nat)
deriving DecidableEq, Repr

/-- `v instanceof ReplicateObject` on a slot value. -/
def isRep : JVal → Bool
  | JVal.rep _ => true
  | _ => false

/-- JS strict equality `===` on slot values: value equality for primitives,
reference (heap id) equality for composite children. -/
def jsStrictEq : JVal → JVal → Bool
  | JVal.num a, JVal.num b => a == b
  | JVal.str a, JVal.str b => a == b
  | JVal.boolV a, JVal.boolV b => a == b
  | JVal.undef, JVal.undef => true
  | JVal.rep a, JVal.rep b => a == b
  | _, _ => false

/-- Decimal integer fragment of JS `ToNumber` on strings: the empty string
converts to `0`, decimal digit strings (optionally `-`-signed) to their
value, anything else to NaN (`none`).  Fractional and exotic numeric
syntax is outside the value universe of this model. -/
def strToNum (s : String) : Option Int :=
  if s = "" then some 0
  else
    match s.toNat? with
    | some n => some (Int.ofNat n)
    | none =>
      if s.startsWith "-" then ((s.drop 1).toNat?).map (fun n => -(Int.ofNat n)) else none

/-- JS `ToNumber` on slot values (`none` = NaN; objects are not coerced in
this model). -/
def jsToNum : JVal → Option Int
  | JVal.num n => some n
  | JVal.boolV b => some (if b then 1 else 0)
  | JVal.str s => strToNum s
  | JVal.undef => none
  | JVal.rep _ => none

/-- JS loose equality `==` on slot values, as used by the seeding check
`oldValue != info.def`: same-type comparison for primitives, numeric
coercion across `number`/`string`/`boolean`, reference equality for
objects, and `undefined` equal only to itself. -/
def jsLooseEq : JVal → JVal → Bool
  | JVal.undef, JVal.undef => true
  | JVal.rep a, JVal.rep b => a == b
  | JVal.str a, JVal.str b => a == b
  | a, b =>
    match jsToNum a, jsToNum b with
    | some x, some y => x == y
    | _, _ => false

/-- JS truthiness, as used by the seeding check `else if (oldValue)`. -/
def jsTruthy : JVal → Bool
  | JVal.num n => n != 0
  | JVal.str s => s != ""
  | JVal.boolV b => b
  | JVal.undef => false
  | JVal.rep _ => true

/-- One tracked slot (interface `ReplicateProperty` in the source):
`changed` is the dirty flag, `version` the version stamped by the last diff
that covered the slot, `data` the stored value. -/
structure ReplicateProperty where
  changed : Bool
  version : Nat
  data : JVal
deriving DecidableEq, Repr

/-- Per-instance tracker state (class `ReplicateObject`): last diffed
version, the slot map in insertion order (a JS `Map`), the
has-new-change/pending-notify flag, and the parent link (`outter` id plus
the key this tracker occupies in the parent). -/
structure ReplicateObject where
  lastVersion : Nat
  dataMap : List (String × ReplicateProperty)
  hasNewChange : Bool
  outter : Option Nat
  outterKey : String
deriving DecidableEq, Repr

/-- The heap of `ReplicateObject` instances, addressed by id. -/
def Heap : Type := Nat → ReplicateObject

/-- Lookup in an association list (first match, like `Map.get`). -/
def lkp {α : Type} : List (String × α) → String → Option α
  | [], _ => none
  | (k, v) :: rest, key => if k = key then some v else lkp rest key

/-- Keys of an association list in order. -/
def keys {α : Type} (l : List (String × α)) : List String :=
  l.map Prod.fst

/-- Replace the value of the first occurrence of `key` (the in-place
mutation of an existing `Map` entry). -/
def setSlot {α : Type} : List (String × α) → String → α → List (String × α)
  | [], _, _ => []
  | (k, v) :: rest, key, nv => if k = key then (k, nv) :: rest else (k, v) :: setSlot rest key nv

/-- Point update of the heap at one id. -/
def updateObj (h : Heap) (i : Nat) (f : ReplicateObject → ReplicateObject) : Heap :=
  fun j => if j = i then f (h j) else h j

theorem updateObj_same (h : Heap) (i : Nat) (f : ReplicateObject → ReplicateObject) :
    updateObj h i f i = f (h i) := by
  simp [updateObj]

theorem updateObj_other (h : Heap) (i j : Nat) (f : ReplicateObject → ReplicateObject)
    (hij : j ≠ i) : updateObj h i f j = h j := by
  simp [updateObj, hij]

/-- Update the slot map of the tracker at `i` in place (the `this.dataMap`
mutations of `propertyChanged`). -/
def updSlots (h : Heap) (i : Nat)
    (g : List (String × ReplicateProperty) → List (String × ReplicateProperty)) : Heap :=
  updateObj h i (fun ob => { ob with dataMap := g ob.dataMap })

theorem updSlots_dataMap_same (h : Heap) (i : Nat)
    (g : List (String × ReplicateProperty) → List (String × ReplicateProperty)) :
    ((updSlots h i g) i).dataMap = g ((h i).dataMap) := by
  simp [updSlots, updateObj]

theorem updSlots_dataMap_other (h : Heap) (i id : Nat)
    (g : List (String × ReplicateProperty) → List (String × ReplicateProperty))
    (hid : id ≠ i) : ((updSlots h i g) id).dataMap = (h id).dataMap := by
  simp [updSlots, updateObj, hid]

theorem updSlots_hasNewChange (h : Heap) (i id : Nat)
    (g : List (String × ReplicateProperty) → List (String × ReplicateProperty)) :
    ((updSlots h i g) id).hasNewChange = (h id).hasNewChange := by
  by_cases hid : id = i <;> simp [updSlots, updateObj, hid]

theorem updSlots_outter (h : Heap) (i id : Nat)
    (g : List (String × ReplicateProperty) → List (String × ReplicateProperty)) :
    ((updSlots h i g) id).outter = (h id).outter := by
  by_cases hid : id = i <;> simp [updSlots, updateObj, hid]

/-- Set the `hasNewChange` flag of the tracker at `i`
(`this.hasNewChange = true`). -/
def setFlag (h : Heap) (i : Nat) : Heap :=
  updateObj h i (fun ob => { ob with hasNewChange := true })

theorem setFlag_dataMap (h : Heap) (i id : Nat) :
    ((setFlag h i) id).dataMap = (h id).dataMap := by
  by_cases hid : id = i <;> simp [setFlag, updateObj, hid]

theorem setFlag_hasNewChange_same (h : Heap) (i : Nat) :
    ((setFlag h i) i).hasNewChange = true := by
  simp [setFlag, updateObj]

theorem setFlag_outter (h : Heap) (i id : Nat) :
    ((setFlag h i) id).outter = (h id).outter := by
  by_cases hid : id = i <;> simp [setFlag, updateObj, hid]

/-- The data actually stored by `propertyChanged` into an existing slot:
the guard `!(v === undefined && repPro.data instanceof ReplicateObject)`
keeps a composite child in place when `undefined` is assigned over it
(source lines 322-324). -/
def keptData (v old : JVal) : JVal :=
  if v = JVal.undef ∧ isRep old = true then old else v

theorem keptData_undef_rep (old : JVal) (h : isRep old = true) :
    keptData JVal.undef old = old := by
  simp [keptData, h]

theorem keptData_of_ne_undef (v old : JVal) (h : v ≠ JVal.undef) : keptData v old = v := by
  simp [keptData, h]

/-- The `setOutter` call relayed by `propertyChanged` when the freshly stored data is
a composite child: rebind the child's parent pointer. -/
def setOutterIfRep (h : Heap) (d : JVal) (id : Nat) (key : String) : Heap :=
  match d with
  | JVal.rep cid => updateObj h cid (fun c => { c with outter := some id, outterKey := key })
  | _ => h

/-- Tail of `propertyChanged` shared by the existing-slot and fresh-slot
branches: `setOutter` on a composite value, then the single parent
notification guarded by `!this.hasNewChange && repPro.changed`, then
`this.hasNewChange = true`.  `recurse` is the upward notification call
(`this.outter.propertyChanged(this.outterKey)`), and the returned flag
records whether this tracker notified its parent. -/
def pcNotify (recurse : Heap → Nat → String → Heap) (h1 : Heap) (id : Nat) (key : String)
    (rp : ReplicateProperty) : Heap × Bool :=
  let h2 := setOutterIfRep h1 rp.data id key
  if (h2 id).hasNewChange = false ∧ rp.changed = true then
    match (h2 id).outter with
    | some pid => (setFlag (recurse h2 pid ((h2 id).outterKey)) id, true)
    | none => (setFlag h2 id, false)
  else (h2, false)

/-- Model of `ReplicateObject.propertyChanged(key, v, force)` (source lines 312-343),
acting on the tracker at `id`.  The slot's dirty flag becomes
`force != true`; an assignment strictly equal to the stored data returns at
once; assigning `undefined` over a composite child keeps the child; a fresh
slot starts at version 0.  The `Bool` result records whether this call
relayed a notification to `outter`. -/
def propertyChanged : Nat → Heap → Nat → String → JVal → Bool → Heap × Bool
  | 0, h, _, _, _, _ => (h, false)
  | Nat.succ fuel, h, id, key, v, force =>
    match lkp (h id).dataMap key with
    | some repPro =>
      if jsStrictEq v repPro.data then (h, false)
      else
        let rp : ReplicateProperty := ⟨!force, repPro.version, keptData v repPro.data⟩
        pcNotify (fun hh pid pkey => (propertyChanged fuel hh pid pkey JVal.undef false).1)
          (updSlots h id (fun m => setSlot m key rp)) id key rp
    | none =>
      let rp : ReplicateProperty := ⟨!force, 0, v⟩
      pcNotify (fun hh pid pkey => (propertyChanged fuel hh pid pkey JVal.undef false).1)
        (updSlots h id (fun m => m ++ [(key, rp)])) id key rp

/-- Model of `ReplicateObject.getProperty(key)` (source lines 345-348): the stored
data, or `undefined` when the slot was never created. -/
def getProperty (h : Heap) (id : Nat) (key : String) : JVal :=
  match lkp (h id).dataMap key with
  | some rp => rp.data
  | none => JVal.undef

/-- A value of the generated diff object: either a raw slot value copied by
`genProperty`, or the nested diff of a composite child. -/
inductive DiffVal where
  | val (v : JVal)
  | obj (fields : List (String × DiffVal))
deriving Repr

/-- The `for (let [key, property] of this.dataMap)` loop of `genDiff`
(source lines 371-386): dirty slots are stamped to `toVersion` and
cleared, clean slots older than `fromVersion` are skipped, and a composite
child contributes only when its recursive diff is not the `false`
sentinel.  Returns the updated slot list, the emitted diff entries in
order, and the heap threaded through child calls (`childDiff`). -/
def genDiffEntries (childDiff : Heap → Nat → Option (List (String × DiffVal)) × Heap)
    (fv tv : Nat) :
    List (String × ReplicateProperty) → Heap →
      List (String × ReplicateProperty) × List (String × DiffVal) × Heap
  | [], h => ([], [], h)
  | (k, p) :: rest, h =>
    if p.changed = false ∧ p.version < fv then
      let r := genDiffEntries childDiff fv tv rest h
      ((k, p) :: r.1, r.2.1, r.2.2)
    else
      let p' : ReplicateProperty := if p.changed then ⟨false, tv, p.data⟩ else p
      match p'.data with
      | JVal.rep cid =>
        let c := childDiff h cid
        let r := genDiffEntries childDiff fv tv rest c.2
        ((k, p') :: r.1,
          (match c.1 with
           | some dv => (k, DiffVal.obj dv) :: r.2.1
           | none => r.2.1),
          r.2.2)
      | _ =>
        let r := genDiffEntries childDiff fv tv rest h
        ((k, p') :: r.1, (k, DiffVal.val p'.data) :: r.2.1, r.2.2)

/-- Model of `ReplicateObject.genDiff(fromVersion, toVersion)` (source lines
360-389) for the tracker at `id`.  `none` is the `false` "no difference"
sentinel, returned when `toVersion < fromVersion` or when
`fromVersion > lastVersion` with no new change; otherwise the slot loop
runs and `lastVersion` is set to `toVersion`.  Note that the source never
resets `hasNewChange` here. -/
def genDiff : Nat → Heap → Nat → Nat → Nat → Option (List (String × DiffVal)) × Heap
  | 0, h, _, _, _ => (none, h)
  | Nat.succ fuel, h, id, fromVersion, toVersion =>
    if toVersion < fromVersion then (none, h)
    else if (h id).lastVersion < fromVersion ∧ (h id).hasNewChange = false then (none, h)
    else
      let r := genDiffEntries (fun hh cid => genDiff fuel hh cid fromVersion toVersion)
        fromVersion toVersion (h id).dataMap h
      (some r.2.1, updateObj r.2.2 id (fun ob => { ob with dataMap := r.1, lastVersion := toVersion }))

/-- First-use seeding of one marked property inside the module-level
`genDiff` entry point (source lines 459-473), for a property whose
descriptor carries a plain value and no pre-existing setter: a value
loosely different from the registered default is pushed through the
tracked setter (`target[propertyName] = oldValue`), a truthy default-equal
value is re-seeded untracked (`propertyChanged(propertyName, oldValue,
true)`), and a falsy default-equal value is left alone. -/
def seedMark (fuel : Nat) (h : Heap) (id : Nat) (name : String) (defV oldV : JVal) : Heap :=
  if jsLooseEq oldV defV = false then (propertyChanged fuel h id name oldV false).1
  else if jsTruthy oldV then (propertyChanged fuel h id name oldV true).1
  else h

/-- A sequence of assignments `target.k = v` on one tracker, counting how
many parent notifications the tracker relayed. -/
def pcMany (fuel : Nat) : Heap → Nat → List (String × JVal) → Heap × Nat
  | h, _, [] => (h, 0)
  | h, id, (k, v) :: rest =>
    let r := propertyChanged fuel h id k v false
    let r2 := pcMany fuel r.1 id rest
    (r2.1, (if r.2 then 1 else 0) + r2.2)

/-- The empty tracker a fresh `new ReplicateObject()` starts from. -/
def emptyRep : ReplicateObject :=
  { lastVersion := 0, dataMap := [], hasNewChange := false, outter := none, outterKey := "" }

/-! ### Association-list and heap-update lemmas -/

theorem lkp_eq_none_iff {α : Type} :
    ∀ (m : List (String × α)) (k : String), lkp m k = none ↔ k ∉ keys m
  | [], k => by simp [lkp, keys]
  | (k0, v) :: rest, k => by
    by_cases hk : k0 = k
    · subst hk; simp [lkp, keys]
    · simp only [lkp, keys, List.map_cons, List.mem_cons, if_neg hk]
      rw [← keys]
      constructor
      · intro hn hor
        rcases hor with hor | hor
        · exact hk hor.symm
        · exact ((lkp_eq_none_iff rest k).1 hn) hor
      · intro hn
        exact (lkp_eq_none_iff rest k).2 (fun hm => hn (Or.inr hm))

theorem lkp_mem_keys {α : Type} :
    ∀ (m : List (String × α)) (k : String) (v : α), lkp m k = some v → k ∈ keys m
  | [], _, _, h => by simp [lkp] at h
  | (k0, w) :: rest, k, v, h => by
    by_cases hk : k0 = k
    · subst hk; simp [keys]
    · simp only [lkp, if_neg hk] at h
      simp only [keys, List.map_cons, List.mem_cons]
      exact Or.inr (lkp_mem_keys rest k v h)

theorem lkp_append_some {α : Type} :
    ∀ (m l : List (String × α)) (k : String) (v : α),
      lkp m k = some v → lkp (m ++ l) k = some v
  | [], _, _, _, h => by simp [lkp] at h
  | (k0, w) :: rest, l, k, v, h => by
    by_cases hk : k0 = k
    · subst hk; simp only [lkp, if_pos rfl] at h ⊢; exact h
    · simp only [lkp, if_neg hk] at h ⊢
      exact lkp_append_some rest l k v h

theorem lkp_append_fresh {α : Type} :
    ∀ (m : List (String × α)) (k : String) (v : α),
      lkp m k = none → lkp (m ++ [(k, v)]) k = some v
  | [], k, v, _ => by simp [lkp]
  | (k0, w) :: rest, k, v, h => by
    by_cases hk : k0 = k
    · subst hk; simp [lkp] at h
    · simp only [lkp, if_neg hk] at h ⊢
      exact lkp_append_fresh rest k v h

theorem lkp_setSlot_self {α : Type} :
    ∀ (m : List (String × α)) (k : String) (v w : α),
      lkp m k = some w → lkp (setSlot m k v) k = some v
  | [], _, _, _, h => by simp [lkp] at h
  | (k0, u) :: rest, k, v, w, h => by
    by_cases hk : k0 = k
    · subst hk; simp [setSlot, lkp]
    · simp only [lkp, if_neg hk] at h
      simp only [setSlot, if_neg hk, lkp, if_neg hk]
      exact lkp_setSlot_self rest k v w h

theorem lkp_setSlot_other {α : Type} :
    ∀ (m : List (String × α)) (k k' : String) (v : α),
      k ≠ k' → lkp (setSlot m k v) k' = lkp m k'
  | [], _, _, _, _ => by simp [setSlot]
  | (k0, u) :: rest, k, k', v, hne => by
    by_cases hk : k0 = k
    · subst hk
      simp only [setSlot, if_pos rfl, lkp, if_neg hne]
    · simp only [setSlot, if_neg hk, lkp]
      by_cases hk' : k0 = k'
      · simp [hk']
      · simp only [if_neg hk']
        exact lkp_setSlot_other rest k k' v hne

theorem updateObj_dataMap (h : Heap) (i : Nat) (f : ReplicateObject → ReplicateObject)
    (hf : ∀ ob, (f ob).dataMap = ob.dataMap) (id : Nat) :
    ((updateObj h i f) id).dataMap = (h id).dataMap := by
  by_cases hid : id = i
  · subst hid; rw [updateObj_same]; exact hf (h id)
  · rw [updateObj_other _ _ _ _ hid]

theorem updateObj_hasNewChange (h : Heap) (i : Nat) (f : ReplicateObject → ReplicateObject)
    (hf : ∀ ob, (f ob).hasNewChange = ob.hasNewChange) (id : Nat) :
    ((updateObj h i f) id).hasNewChange = (h id).hasNewChange := by
  by_cases hid : id = i
  · subst hid; rw [updateObj_same]; exact hf (h id)
  · rw [updateObj_other _ _ _ _ hid]

theorem updateObj_outter (h : Heap) (i : Nat) (f : ReplicateObject → ReplicateObject)
    (hf : ∀ ob, (f ob).outter = ob.outter) (id : Nat) :
    ((updateObj h i f) id).outter = (h id).outter := by
  by_cases hid : id = i
  · subst hid; rw [updateObj_same]; exact hf (h id)
  · rw [updateObj_other _ _ _ _ hid]

theorem setOutterIfRep_dataMap (h : Heap) (d : JVal) (i : Nat) (k : String) (id : Nat) :
    ((setOutterIfRep h d i k) id).dataMap = (h id).dataMap := by
  cases d with
  | rep cid =>
    apply updateObj_dataMap
    intro ob
    rfl
  | num n => rfl
  | str s => rfl
  | boolV b => rfl
  | undef => rfl

theorem setOutterIfRep_hasNewChange (h : Heap) (d : JVal) (i : Nat) (k : String) (id : Nat) :
    ((setOutterIfRep h d i k) id).hasNewChange = (h id).hasNewChange := by
  cases d with
  | rep cid =>
    apply updateObj_hasNewChange
    intro ob
    rfl
  | num n => rfl
  | str s => rfl
  | boolV b => rfl
  | undef => rfl

/-! ### Invariants of the notification cascade -/

theorem pair_fst {α β : Type} (a : α) (b : β) : (a, b).1 = a := rfl

/-- The tail of `propertyChanged` preserves a slot of the tracker at `id`
whenever the upward notification call does. -/
theorem pcNotify_lkp (fuel : Nat) (h1 : Heap) (pid : Nat) (pkey : String)
    (rp0 : ReplicateProperty) (id : Nat) (key : String) (rp : ReplicateProperty)
    (hrec : ∀ (hh : Heap) (p2 : Nat) (k2 : String), lkp (hh id).dataMap key = some rp →
      lkp (((propertyChanged fuel hh p2 k2 JVal.undef false).1) id).dataMap key = some rp)
    (h1l : lkp (h1 id).dataMap key = some rp) :
    lkp (((pcNotify (fun hh p k => (propertyChanged fuel hh p k JVal.undef false).1)
      h1 pid pkey rp0).1) id).dataMap key = some rp := by
  have h2l : lkp ((setOutterIfRep h1 rp0.data pid pkey id)).dataMap key = some rp := by
    rw [setOutterIfRep_dataMap]; exact h1l
  simp only [pcNotify]
  split
  · split
    · simp only [pair_fst]
      rw [setFlag_dataMap]
      exact hrec _ _ _ h2l
    · simp only [pair_fst]
      rw [setFlag_dataMap]
      exact h2l
  · simp only [pair_fst]
    exact h2l

/-- An upward notification (`propertyChanged` with value `undefined` and no
force flag) leaves every dirty composite slot in the heap exactly as it
was: the `undefined` guard keeps the data, and re-marking an already dirty
slot is the identity. -/
theorem pc_undef_preserves_dirty_rep (id : Nat) (key : String) (rp : ReplicateProperty)
    (hch : rp.changed = true) (hrep : isRep rp.data = true) :
    ∀ (fuel : Nat) (h : Heap) (pid : Nat) (pkey : String),
      lkp (h id).dataMap key = some rp →
      lkp (((propertyChanged fuel h pid pkey JVal.undef false).1) id).dataMap key = some rp := by
  intro fuel
  induction fuel with
  | zero => intro h pid pkey hl; exact hl
  | succ fuel ih =>
    intro h pid pkey hl
    simp only [propertyChanged]
    cases hpp : lkp (h pid).dataMap pkey with
    | none =>
      apply pcNotify_lkp _ _ _ _ _ _ _ _ (fun hh p2 k2 hll => ih hh p2 k2 hll)
      by_cases hid : id = pid
      · subst hid
        rw [updSlots_dataMap_same]
        by_cases hk : key = pkey
        · subst hk; rw [hl] at hpp; exact absurd hpp (by simp)
        · exact lkp_append_some _ _ _ _ hl
      · rw [updSlots_dataMap_other _ _ _ _ hid]; exact hl
    | some repPro =>
      by_cases hse : jsStrictEq JVal.undef repPro.data
      · simp only [if_pos hse]; exact hl
      · simp only [if_neg hse]
        apply pcNotify_lkp _ _ _ _ _ _ _ _ (fun hh p2 k2 hll => ih hh p2 k2 hll)
        by_cases hid : id = pid
        · subst hid
          rw [updSlots_dataMap_same]
          by_cases hk : key = pkey
          · subst hk
            rw [hl] at hpp
            cases hpp
            rw [keptData_undef_rep _ hrep]
            have hrp : (⟨!false, rp.version, rp.data⟩ : ReplicateProperty) = rp := by
              cases rp with
              | mk c ver d =>
                simp only at hch
                rw [hch]
                rfl
            rw [hrp]
            exact lkp_setSlot_self _ _ _ _ hl
          · rw [lkp_setSlot_other _ _ _ _ (fun hkk => hk hkk.symm)]
            exact hl
        · rw [updSlots_dataMap_other _ _ _ _ hid]; exact hl

/-! ### C5: no-op suppression -/

/-- C5: assigning a slot a value strictly equal (`===`) to the stored value
returns immediately: the heap (every slot, version, flag, parent link) is
unchanged and no notification is relayed to the parent. -/
theorem noop_assignment_unchanged (fuel : Nat) (h : Heap) (id : Nat) (key : String)
    (v : JVal) (force : Bool) (rp : ReplicateProperty)
    (hl : lkp (h id).dataMap key = some rp) (he : jsStrictEq v rp.data = true) :
    propertyChanged (fuel + 1) h id key v force = (h, false) := by
  simp only [propertyChanged, hl, if_pos he]

def hW5 : Heap := fun _ => { emptyRep with dataMap := [("a", ⟨false, 0, JVal.num 1⟩)] }

/-- Witness for C5 at a concrete tracker. -/
theorem noop_assignment_unchanged_witness :
    lkp (hW5 0).dataMap "a" = some ⟨false, 0, JVal.num 1⟩ ∧
    jsStrictEq (JVal.num 1) (JVal.num 1) = true ∧
    propertyChanged 1 hW5 0 "a" (JVal.num 1) false = (hW5, false) :=
  ⟨rfl, rfl,
    noop_assignment_unchanged 0 hW5 0 "a" (JVal.num 1) false ⟨false, 0, JVal.num 1⟩ rfl rfl⟩

/-! ### C7: assigning `undefined` over a composite child -/

/-- C7: assigning `undefined` to a slot whose stored data is a composite
child leaves the stored data unchanged (the child is never removed), while
the slot is still re-marked with dirty flag `force != true` — in
particular a plain assignment (`force` absent) marks it dirty. -/
theorem undefined_keeps_composite_child (fuel : Nat) (h : Heap) (id : Nat) (key : String)
    (cid : Nat) (rp : ReplicateProperty) (force : Bool)
    (hl : lkp (h id).dataMap key = some rp) (hd : rp.data = JVal.rep cid) :
    lkp (((propertyChanged (fuel + 1) h id key JVal.undef force).1) id).dataMap key
      = some ⟨!force, rp.version, rp.data⟩ := by
  have hse : jsStrictEq JVal.undef rp.data = false := by rw [hd]; rfl
  have hrep : isRep rp.data = true := by rw [hd]; rfl
  have hkept : keptData JVal.undef rp.data = rp.data := keptData_undef_rep _ hrep
  simp only [propertyChanged, hl, hse, Bool.false_eq_true, if_false, hkept]
  have h1l : lkp (((updSlots h id (fun m =>
      setSlot m key (⟨!force, rp.version, rp.data⟩ : ReplicateProperty))) id).dataMap) key
      = some (⟨!force, rp.version, rp.data⟩ : ReplicateProperty) := by
    rw [updSlots_dataMap_same]
    exact lkp_setSlot_self _ _ _ _ hl
  cases force with
  | false =>
    apply pcNotify_lkp
    · intro hh p2 k2 hll
      exact pc_undef_preserves_dirty_rep id key
        (⟨!false, rp.version, rp.data⟩ : ReplicateProperty) rfl hrep fuel hh p2 k2 hll
    · exact h1l
  | true =>
    simp only [pcNotify]
    rw [if_neg (by simp)]
    simp only [pair_fst]
    rw [setOutterIfRep_dataMap]
    exact h1l

def hW7 : Heap := fun i =>
  if i = 0 then { emptyRep with dataMap := [("child", ⟨false, 3, JVal.rep 1⟩)] }
  else emptyRep

/-- Witness for C7: the composite child at id 1 survives an `undefined`
assignment and the slot is marked dirty. -/
theorem undefined_keeps_composite_child_witness :
    lkp (hW7 0).dataMap "child" = some ⟨false, 3, JVal.rep 1⟩ ∧
    lkp (((propertyChanged 2 hW7 0 "child" JVal.undef false).1) 0).dataMap "child"
      = some ⟨true, 3, JVal.rep 1⟩ :=
  ⟨rfl,
    undefined_keeps_composite_child 1 hW7 0 "child" 1 ⟨false, 3, JVal.rep 1⟩ false rfl rfl⟩

/-! ### C4: single notification per window -/

/-- Plain scalar assignment values: not a composite child and not
`undefined` (the two cases with side effects on parent links or composite
guards). -/
def scalarish : JVal → Bool
  | JVal.rep _ => false
  | JVal.undef => false
  | _ => true

theorem scalarish_ne_undef (v : JVal) (h : scalarish v = true) : v ≠ JVal.undef := by
  cases v <;> simp_all [scalarish]

theorem scalarish_not_rep (v : JVal) (h : scalarish v = true) : isRep v = false := by
  cases v <;> simp_all [scalarish, isRep]

theorem setOutterIfRep_nonrep (h : Heap) (d : JVal) (i : Nat) (k : String)
    (hd : isRep d = false) : setOutterIfRep h d i k = h := by
  cases d <;> simp_all [setOutterIfRep, isRep]

/-- With the tracker's flag already set, the notification tail does
nothing. -/
theorem pcNotify_of_flag (recurse : Heap → Nat → String → Heap) (h1 : Heap) (pid : Nat)
    (pkey : String) (rp : ReplicateProperty) (hf : (h1 pid).hasNewChange = true)
    (hnr : isRep rp.data = false) :
    pcNotify recurse h1 pid pkey rp = (h1, false) := by
  have hcond : ¬((h1 pid).hasNewChange = false ∧ rp.changed = true) := by
    intro hco
    rw [hf] at hco
    exact absurd hco.1 (by simp)
  simp only [pcNotify, setOutterIfRep_nonrep _ _ _ _ hnr, if_neg hcond]

/-- With the flag clear, a dirty slot and a parent link, the notification
tail relays exactly one call and then sets the flag. -/
theorem pcNotify_notify (recurse : Heap → Nat → String → Heap) (h1 : Heap) (pid : Nat)
    (pkey : String) (rp : ReplicateProperty) (p : Nat) (hf : (h1 pid).hasNewChange = false)
    (hch : rp.changed = true) (hnr : isRep rp.data = false) (ho : (h1 pid).outter = some p) :
    pcNotify recurse h1 pid pkey rp = (setFlag (recurse h1 p ((h1 pid).outterKey)) pid, true) := by
  simp only [pcNotify, setOutterIfRep_nonrep _ _ _ _ hnr, if_pos (And.intro hf hch), ho]

/-- A tracker without a parent: the notification tail never relays a call
and leaves the parent link absent. -/
theorem pcNotify_root (recurse : Heap → Nat → String → Heap) (h1 : Heap) (pid : Nat)
    (pkey : String) (rp : ReplicateProperty) (hnr : isRep rp.data = false)
    (ho : (h1 pid).outter = none) :
    (pcNotify recurse h1 pid pkey rp).2 = false ∧
    ((pcNotify recurse h1 pid pkey rp).1 pid).outter = none := by
  simp only [pcNotify, setOutterIfRep_nonrep _ _ _ _ hnr]
  split
  · rw [ho]
    exact ⟨rfl, (setFlag_outter h1 pid pid).trans ho⟩
  · exact ⟨rfl, ho⟩

/-- Once a tracker's `hasNewChange` flag is set, a further scalar
assignment on it relays no notification and leaves the flag set. -/
theorem pc_after_flag (fuel : Nat) (h : Heap) (id : Nat) (key : String) (v : JVal)
    (force : Bool) (hs : scalarish v = true) (hf : (h id).hasNewChange = true) :
    (propertyChanged (fuel + 1) h id key v force).2 = false ∧
    (((propertyChanged (fuel + 1) h id key v force).1) id).hasNewChange = true := by
  simp only [propertyChanged]
  cases hl : lkp (h id).dataMap key with
  | some rp =>
    by_cases hse : jsStrictEq v rp.data
    · simp only [if_pos hse]
      exact ⟨trivial, hf⟩
    · simp only [if_neg hse, keptData_of_ne_undef v rp.data (scalarish_ne_undef v hs)]
      rw [pcNotify_of_flag _ _ _ _ _ ((updSlots_hasNewChange h id id _).trans hf)
        (scalarish_not_rep v hs)]
      exact ⟨rfl, (updSlots_hasNewChange h id id _).trans hf⟩
  | none =>
    rw [pcNotify_of_flag _ _ _ _ _ ((updSlots_hasNewChange h id id _).trans hf)
      (scalarish_not_rep v hs)]
    exact ⟨rfl, (updSlots_hasNewChange h id id _).trans hf⟩

/-- A tracker without a parent never relays a notification, and a scalar
assignment leaves it parentless. -/
theorem pc_outter_none (fuel : Nat) (h : Heap) (id : Nat) (key : String) (v : JVal)
    (force : Bool) (hs : scalarish v = true) (ho : (h id).outter = none) :
    (propertyChanged (fuel + 1) h id key v force).2 = false ∧
    (((propertyChanged (fuel + 1) h id key v force).1) id).outter = none := by
  simp only [propertyChanged]
  cases hl : lkp (h id).dataMap key with
  | some rp =>
    by_cases hse : jsStrictEq v rp.data
    · simp only [if_pos hse]
      exact ⟨trivial, ho⟩
    · simp only [if_neg hse, keptData_of_ne_undef v rp.data (scalarish_ne_undef v hs)]
      exact pcNotify_root _ _ _ _ _ (scalarish_not_rep v hs)
        ((updSlots_outter h id id _).trans ho)
  | none =>
    exact pcNotify_root _ _ _ _ _ (scalarish_not_rep v hs)
      ((updSlots_outter h id id _).trans ho)

/-- A value-changing scalar assignment on a tracker with a clear flag and a
parent relays exactly one notification and sets the flag. -/
theorem pc_first_notify (fuel : Nat) (h : Heap) (id : Nat) (key : String) (v : JVal)
    (p : Nat) (hs : scalarish v = true) (hf : (h id).hasNewChange = false)
    (ho : (h id).outter = some p)
    (hch : match lkp (h id).dataMap key with
      | some rp => jsStrictEq v rp.data = false
      | none => True) :
    (propertyChanged (fuel + 1) h id key v false).2 = true ∧
    (((propertyChanged (fuel + 1) h id key v false).1) id).hasNewChange = true := by
  simp only [propertyChanged]
  cases hl : lkp (h id).dataMap key with
  | some rp =>
    rw [hl] at hch
    simp only [hch, Bool.false_eq_true, if_false,
      keptData_of_ne_undef v rp.data (scalarish_ne_undef v hs)]
    rw [pcNotify_notify _ _ _ _ _ p ((updSlots_hasNewChange h id id _).trans hf) rfl
      (scalarish_not_rep v hs) ((updSlots_outter h id id _).trans ho)]
    exact ⟨rfl, setFlag_hasNewChange_same _ _⟩
  | none =>
    rw [pcNotify_notify _ _ _ _ _ p ((updSlots_hasNewChange h id id _).trans hf) rfl
      (scalarish_not_rep v hs) ((updSlots_outter h id id _).trans ho)]
    exact ⟨rfl, setFlag_hasNewChange_same _ _⟩

theorem pcMany_after_flag :
    ∀ (asg : List (String × JVal)) (fuel : Nat) (h : Heap) (id : Nat),
      (h id).hasNewChange = true → (∀ kv ∈ asg, scalarish kv.2 = true) →
      (pcMany (fuel + 1) h id asg).2 = 0
  | [], _, _, _, _, _ => rfl
  | (k, v) :: rest, fuel, h, id, hf, hall => by
    have hstep := pc_after_flag fuel h id k v false (hall (k, v) (by simp)) hf
    simp only [pcMany, hstep.1, if_false, Bool.false_eq_true]
    rw [pcMany_after_flag rest fuel _ id hstep.2
      (fun kv hkv => hall kv (by simp [hkv]))]

theorem pcMany_root :
    ∀ (asg : List (String × JVal)) (fuel : Nat) (h : Heap) (id : Nat),
      (h id).outter = none → (∀ kv ∈ asg, scalarish kv.2 = true) →
      (pcMany (fuel + 1) h id asg).2 = 0
  | [], _, _, _, _, _ => rfl
  | (k, v) :: rest, fuel, h, id, ho, hall => by
    have hstep := pc_outter_none fuel h id k v false (hall (k, v) (by simp)) ho
    simp only [pcMany, hstep.1, if_false, Bool.false_eq_true]
    rw [pcMany_root rest fuel _ id hstep.2
      (fun kv hkv => hall kv (by simp [hkv]))]

/-- C4: within one window (flag initially clear), a sequence of scalar
assignments starting with a value-changing one on a tracker that has a
parent relays exactly one notification to the parent — issued by the first
dirty mark — no matter how many further assignments follow; a tracker with
no parent relays none at all. -/
theorem single_notify_per_window :
    (∀ (fuel : Nat) (h : Heap) (id p : Nat) (k1 : String) (v1 : JVal)
       (rest : List (String × JVal)),
       (h id).outter = some p → (h id).hasNewChange = false →
       scalarish v1 = true → (∀ kv ∈ rest, scalarish kv.2 = true) →
       (match lkp (h id).dataMap k1 with
         | some rp => jsStrictEq v1 rp.data = false
         | none => True) →
       (propertyChanged (fuel + 1) h id k1 v1 false).2 = true ∧
       (pcMany (fuel + 1) h id ((k1, v1) :: rest)).2 = 1) ∧
    (∀ (fuel : Nat) (h : Heap) (id : Nat) (asg : List (String × JVal)),
       (h id).outter = none → (∀ kv ∈ asg, scalarish kv.2 = true) →
       (pcMany (fuel + 1) h id asg).2 = 0) := by
  constructor
  · intro fuel h id p k1 v1 rest ho hf hs1 hrest hch
    have hstep := pc_first_notify fuel h id k1 v1 p hs1 hf ho hch
    refine ⟨hstep.1, ?_⟩
    simp only [pcMany, hstep.1, if_true]
    rw [pcMany_after_flag rest fuel _ id hstep.2 hrest]
  · intro fuel h id asg ho hall
    exact pcMany_root asg fuel h id ho hall

def hW4 : Heap := fun i =>
  if i = 0 then { emptyRep with outter := some 1, outterKey := "slot" } else emptyRep

/-- Witness for C4: two scalar assignments on a parented tracker relay one
notification; the same two on a parentless tracker relay none. -/
theorem single_notify_per_window_witness :
    (hW4 0).outter = some 1 ∧ (hW4 0).hasNewChange = false ∧
    (propertyChanged 2 hW4 0 "a" (JVal.num 1) false).2 = true ∧
    (pcMany 2 hW4 0 [("a", JVal.num 1), ("b", JVal.num 2)]).2 = 1 ∧
    (pcMany 2 (fun _ => emptyRep) 0 [("a", JVal.num 1), ("b", JVal.num 2)]).2 = 0 :=
  ⟨rfl, rfl,
    (single_notify_per_window.1 1 hW4 0 1 "a" (JVal.num 1) [("b", JVal.num 2)]
      rfl rfl rfl (by decide) trivial).1,
    (single_notify_per_window.1 1 hW4 0 1 "a" (JVal.num 1) [("b", JVal.num 2)]
      rfl rfl rfl (by decide) trivial).2,
    single_notify_per_window.2 1 (fun _ => emptyRep) 0
      [("a", JVal.num 1), ("b", JVal.num 2)] rfl (by decide)⟩

/-! ### Slot coverage of `genDiff` -/

theorem mem_keys_of_mem {α : Type} (m : List (String × α)) (k : String) (v : α)
    (h : (k, v) ∈ m) : k ∈ keys m := by
  simp only [keys, List.mem_map]
  exact ⟨(k, v), h, rfl⟩

/-- Slot loop, skip case: a clean slot older than `fromVersion` emits
nothing. -/
theorem gde_out_skip (cd : Heap → Nat → Option (List (String × DiffVal)) × Heap)
    (fv tv : Nat) (k0 : String) (pv : Nat) (pd : JVal)
    (rest : List (String × ReplicateProperty)) (h : Heap) (hlt : pv < fv) :
    (genDiffEntries cd fv tv ((k0, ⟨false, pv, pd⟩) :: rest) h).2.1
      = (genDiffEntries cd fv tv rest h).2.1 := by
  simp [genDiffEntries, hlt]

/-- Slot loop, non-composite emit case: a dirty or covered scalar slot
emits its data verbatim. -/
theorem gde_out_scalar (cd : Heap → Nat → Option (List (String × DiffVal)) × Heap)
    (fv tv : Nat) (k0 : String) (pc : Bool) (pv : Nat) (pd : JVal)
    (rest : List (String × ReplicateProperty)) (h : Heap)
    (hf : pc = true ∨ fv ≤ pv) (hnr : isRep pd = false) :
    (genDiffEntries cd fv tv ((k0, ⟨pc, pv, pd⟩) :: rest) h).2.1
      = (k0, DiffVal.val pd) :: (genDiffEntries cd fv tv rest h).2.1 := by
  cases pc with
  | true => cases pd <;> simp_all [genDiffEntries, isRep]
  | false =>
    have hv : fv ≤ pv := by
      rcases hf with hf | hf
      · exact absurd hf (by simp)
      · exact hf
    have hnlt : ¬(pv < fv) := by omega
    cases pd with
    | rep cid => exact absurd hnr (by simp [isRep])
    | num n => simp [genDiffEntries, if_neg hnlt]
    | str s => simp [genDiffEntries, if_neg hnlt]
    | boolV b => simp [genDiffEntries, if_neg hnlt]
    | undef => simp [genDiffEntries, if_neg hnlt]

/-- Slot loop, composite case: a dirty or covered composite slot emits the
child diff under its key unless the child returns the sentinel. -/
theorem gde_out_rep (cd : Heap → Nat → Option (List (String × DiffVal)) × Heap)
    (fv tv : Nat) (k0 : String) (pc : Bool) (pv cid : Nat)
    (rest : List (String × ReplicateProperty)) (h : Heap)
    (hf : pc = true ∨ fv ≤ pv) :
    (genDiffEntries cd fv tv ((k0, ⟨pc, pv, JVal.rep cid⟩) :: rest) h).2.1
      = (match (cd h cid).1 with
         | some dv => (k0, DiffVal.obj dv) :: (genDiffEntries cd fv tv rest (cd h cid).2).2.1
         | none => (genDiffEntries cd fv tv rest (cd h cid).2).2.1) := by
  cases pc with
  | true => simp_all [genDiffEntries]
  | false =>
    have hv : fv ≤ pv := by
      rcases hf with hf | hf
      · exact absurd hf (by simp)
      · exact hf
    have hnlt : ¬(pv < fv) := by omega
    simp [genDiffEntries, if_neg hnlt]

/-- Every key emitted by the slot loop comes from an entry that was dirty
or had version at least `fromVersion`. -/
theorem genDiffEntries_mem :
    ∀ (cd : Heap → Nat → Option (List (String × DiffVal)) × Heap) (fv tv : Nat)
      (entries : List (String × ReplicateProperty)) (h : Heap) (k : String),
      k ∈ keys (genDiffEntries cd fv tv entries h).2.1 →
      ∃ rp, (k, rp) ∈ entries ∧ (rp.changed = true ∨ fv ≤ rp.version)
  | cd, fv, tv, [], h, k => by simp [genDiffEntries, keys]
  | cd, fv, tv, (k0, ⟨pc, pv, pd⟩) :: rest, h, k => by
    intro hmem
    by_cases hskip : pc = false ∧ pv < fv
    · rw [hskip.1, gde_out_skip cd fv tv k0 pv pd rest h hskip.2] at hmem
      obtain ⟨rp, hrp, hfil⟩ := genDiffEntries_mem cd fv tv rest h k hmem
      exact ⟨rp, by simp [hrp], hfil⟩
    · have hf : pc = true ∨ fv ≤ pv := by
        rcases Bool.eq_false_or_eq_true pc with hc | hc
        · left; exact hc
        · right
          by_contra hlt
          exact hskip ⟨hc, by omega⟩
      cases pd with
      | rep cid =>
        rw [gde_out_rep cd fv tv k0 pc pv cid rest h hf] at hmem
        cases hcd : (cd h cid).1 with
        | none =>
          rw [hcd] at hmem
          obtain ⟨rp, hrp, hfil⟩ := genDiffEntries_mem cd fv tv rest (cd h cid).2 k hmem
          exact ⟨rp, by simp [hrp], hfil⟩
        | some dv =>
          rw [hcd] at hmem
          simp only [keys, List.map_cons, List.mem_cons] at hmem
          rcases hmem with hmem | hmem
          · exact ⟨⟨pc, pv, JVal.rep cid⟩, by simp [hmem], hf⟩
          · obtain ⟨rp, hrp, hfil⟩ :=
              genDiffEntries_mem cd fv tv rest (cd h cid).2 k (by simpa [keys] using hmem)
            exact ⟨rp, by simp [hrp], hfil⟩
      | num n =>
        rw [gde_out_scalar cd fv tv k0 pc pv (JVal.num n) rest h hf rfl] at hmem
        simp only [keys, List.map_cons, List.mem_cons] at hmem
        rcases hmem with hmem | hmem
        · exact ⟨⟨pc, pv, JVal.num n⟩, by simp [hmem], hf⟩
        · obtain ⟨rp, hrp, hfil⟩ :=
            genDiffEntries_mem cd fv tv rest h k (by simpa [keys] using hmem)
          exact ⟨rp, by simp [hrp], hfil⟩
      | str s =>
        rw [gde_out_scalar cd fv tv k0 pc pv (JVal.str s) rest h hf rfl] at hmem
        simp only [keys, List.map_cons, List.mem_cons] at hmem
        rcases hmem with hmem | hmem
        · exact ⟨⟨pc, pv, JVal.str s⟩, by simp [hmem], hf⟩
        · obtain ⟨rp, hrp, hfil⟩ :=
            genDiffEntries_mem cd fv tv rest h k (by simpa [keys] using hmem)
          exact ⟨rp, by simp [hrp], hfil⟩
      | boolV b =>
        rw [gde_out_scalar cd fv tv k0 pc pv (JVal.boolV b) rest h hf rfl] at hmem
        simp only [keys, List.map_cons, List.mem_cons] at hmem
        rcases hmem with hmem | hmem
        · exact ⟨⟨pc, pv, JVal.boolV b⟩, by simp [hmem], hf⟩
        · obtain ⟨rp, hrp, hfil⟩ :=
            genDiffEntries_mem cd fv tv rest h k (by simpa [keys] using hmem)
          exact ⟨rp, by simp [hrp], hfil⟩
      | undef =>
        rw [gde_out_scalar cd fv tv k0 pc pv JVal.undef rest h hf rfl] at hmem
        simp only [keys, List.map_cons, List.mem_cons] at hmem
        rcases hmem with hmem | hmem
        · exact ⟨⟨pc, pv, JVal.undef⟩, by simp [hmem], hf⟩
        · obtain ⟨rp, hrp, hfil⟩ :=
            genDiffEntries_mem cd fv tv rest h k (by simpa [keys] using hmem)
          exact ⟨rp, by simp [hrp], hfil⟩

/-- Conversely, every non-composite entry passing the dirty-or-covered
filter is emitted. -/
theorem genDiffEntries_scalar_mem :
    ∀ (cd : Heap → Nat → Option (List (String × DiffVal)) × Heap) (fv tv : Nat)
      (entries : List (String × ReplicateProperty)) (h : Heap) (k : String)
      (rp : ReplicateProperty),
      (∀ kv ∈ entries, isRep kv.2.data = false) →
      (k, rp) ∈ entries → (rp.changed = true ∨ fv ≤ rp.version) →
      k ∈ keys (genDiffEntries cd fv tv entries h).2.1
  | cd, fv, tv, [], h, k, rp, hsc, hmem, hfil => by simp at hmem
  | cd, fv, tv, (k0, ⟨pc, pv, pd⟩) :: rest, h, k, rp, hsc, hmem, hfil => by
    rcases List.mem_cons.1 hmem with hhd | htl
    · injection hhd with hk hp
      subst hk
      subst hp
      have hnr : isRep pd = false := by
        have := hsc (k, ⟨pc, pv, pd⟩) (by simp)
        simpa using this
      rw [gde_out_scalar cd fv tv k pc pv pd rest h (by simpa using hfil) hnr]
      simp [keys]
    · have hnr0 : isRep pd = false := by
        have := hsc (k0, ⟨pc, pv, pd⟩) (by simp)
        simpa using this
      have hrec := genDiffEntries_scalar_mem cd fv tv rest h k rp
        (fun kv hkv => hsc kv (by simp [hkv])) htl hfil
      by_cases hskip : pc = false ∧ pv < fv
      · rw [hskip.1, gde_out_skip cd fv tv k0 pv pd rest h hskip.2]
        exact hrec
      · have hf : pc = true ∨ fv ≤ pv := by
          rcases Bool.eq_false_or_eq_true pc with hc | hc
          · left; exact hc
          · right
            by_contra hlt
            exact hskip ⟨hc, by omega⟩
        rw [gde_out_scalar cd fv tv k0 pc pv pd rest h hf hnr0]
        simp only [keys, List.map_cons, List.mem_cons]
        right
        simpa [keys] using hrec

theorem genDiff_keys_subset (fuel : Nat) (h : Heap) (id fv tv : Nat)
    (out : List (String × DiffVal)) (hout : (genDiff fuel h id fv tv).1 = some out) :
    ∀ k ∈ keys out, k ∈ keys (h id).dataMap := by
  cases fuel with
  | zero => simp [genDiff] at hout
  | succ fuel =>
    simp only [genDiff] at hout
    by_cases hlt : tv < fv
    · rw [if_pos hlt] at hout
      simp at hout
    · rw [if_neg hlt] at hout
      by_cases hfast : (h id).lastVersion < fv ∧ (h id).hasNewChange = false
      · rw [if_pos hfast] at hout
        simp at hout
      · rw [if_neg hfast] at hout
        simp only [pair_fst] at hout
        intro k hk
        rw [← Option.some.inj hout] at hk
        obtain ⟨rp, hrp, _⟩ := genDiffEntries_mem _ fv tv _ h k hk
        exact mem_keys_of_mem _ k rp hrp

/-- C1 (amended): when `genDiff` returns a mapping for a window
`fromVersion ≤ toVersion`, every emitted key comes from a slot that was
dirty or had version at least `fromVersion`; and on a tracker whose slots
are all non-composite the mapping holds exactly those slots — a composite
slot passing the filter may still be omitted when its child's recursive
diff is the no-difference sentinel. -/
theorem genDiff_slot_coverage (fuel : Nat) (h : Heap) (id fv tv : Nat)
    (out : List (String × DiffVal)) (hle : fv ≤ tv)
    (hout : (genDiff (fuel + 1) h id fv tv).1 = some out) :
    (∀ k, k ∈ keys out →
       ∃ rp, (k, rp) ∈ (h id).dataMap ∧ (rp.changed = true ∨ fv ≤ rp.version)) ∧
    ((∀ kv ∈ (h id).dataMap, isRep kv.2.data = false) →
       ∀ (k : String) (rp : ReplicateProperty), (k, rp) ∈ (h id).dataMap →
         (rp.changed = true ∨ fv ≤ rp.version) → k ∈ keys out) := by
  simp only [genDiff] at hout
  rw [if_neg (by omega : ¬ tv < fv)] at hout
  by_cases hfast : (h id).lastVersion < fv ∧ (h id).hasNewChange = false
  · rw [if_pos hfast] at hout
    simp at hout
  · rw [if_neg hfast] at hout
    simp only [pair_fst] at hout
    rw [← Option.some.inj hout]
    constructor
    · intro k hk
      exact genDiffEntries_mem _ fv tv _ h k hk
    · intro hsc k rp hmem hfil
      exact genDiffEntries_scalar_mem _ fv tv _ h k rp hsc hmem hfil

def hCX1 : Heap := fun i =>
  if i = 0 then
    { lastVersion := 0, dataMap := [("x", ⟨true, 0, JVal.rep 1⟩)],
      hasNewChange := true, outter := none, outterKey := "" }
  else emptyRep

/-- C1 counterexample: the tracker at id 0 has its single slot `x` dirty
(holding the fresh composite child at id 1), yet `genDiff(1, 2)` — a
window with `from ≤ to` — returns the empty mapping: the dirty composite
slot is omitted because the child's recursive diff is the sentinel,
contradicting "includes exactly the dirty slots ∪ version ≥ from". -/
theorem genDiff_dirty_composite_omitted :
    (hCX1 0).dataMap = [("x", ⟨true, 0, JVal.rep 1⟩)] ∧
    (1 : Nat) ≤ 2 ∧
    (genDiff 2 hCX1 0 1 2).1 = some [] :=
  ⟨rfl, by omega, rfl⟩

def hWC1 : Heap := fun i =>
  if i = 0 then
    { lastVersion := 0,
      dataMap := [("a", ⟨true, 0, JVal.num 1⟩), ("b", ⟨false, 0, JVal.num 2⟩)],
      hasNewChange := true, outter := none, outterKey := "" }
  else emptyRep

/-- Witness for the amended C1 on an all-scalar tracker. -/
theorem genDiff_slot_coverage_witness :
    (1 : Nat) ≤ 1 ∧
    (genDiff 1 hWC1 0 1 1).1 = some [("a", DiffVal.val (JVal.num 1))] ∧
    ((∀ k, k ∈ keys [("a", DiffVal.val (JVal.num 1))] →
        ∃ rp, (k, rp) ∈ (hWC1 0).dataMap ∧ (rp.changed = true ∨ 1 ≤ rp.version)) ∧
     ((∀ kv ∈ (hWC1 0).dataMap, isRep kv.2.data = false) →
        ∀ (k : String) (rp : ReplicateProperty), (k, rp) ∈ (hWC1 0).dataMap →
          (rp.changed = true ∨ 1 ≤ rp.version) → k ∈ keys [("a", DiffVal.val (JVal.num 1))])) :=
  ⟨by omega, rfl, genDiff_slot_coverage 0 hWC1 0 1 1 _ (by omega) rfl⟩

/-! ### C10: first-use seeding of default-equal values -/

/-- C10: during first-use seeding, a marked property whose current value is
loosely equal to its registered default gets an untracked clean slot only
when the value is truthy; a falsy default-equal value creates no slot at
all, so `getProperty` answers `undefined` and the name is absent from
every mapping `genDiff` ever returns. -/
theorem seed_untracked_only_truthy (fuel : Nat) (h : Heap) (id : Nat) (name : String)
    (defV oldV : JVal) (hnone : lkp (h id).dataMap name = none)
    (heq : jsLooseEq oldV defV = true) :
    (jsTruthy oldV = true →
       lkp ((seedMark (fuel + 1) h id name defV oldV) id).dataMap name
         = some ⟨false, 0, oldV⟩) ∧
    (jsTruthy oldV = false →
       seedMark (fuel + 1) h id name defV oldV = h ∧
       getProperty h id name = JVal.undef ∧
       (∀ (f2 fv tv : Nat) (out : List (String × DiffVal)),
          (genDiff f2 h id fv tv).1 = some out → name ∉ keys out)) := by
  constructor
  · intro ht
    simp only [seedMark]
    rw [heq, ht, if_neg (by simp), if_pos rfl]
    simp only [propertyChanged, hnone]
    have hc : ¬(((setOutterIfRep (updSlots h id (fun m => m ++ [(name,
        (⟨!true, 0, oldV⟩ : ReplicateProperty))])) oldV id name) id).hasNewChange = false ∧
        (⟨!true, 0, oldV⟩ : ReplicateProperty).changed = true) := by
      simp
    rw [pcNotify, if_neg hc]
    simp only [pair_fst]
    rw [setOutterIfRep_dataMap, updSlots_dataMap_same]
    exact lkp_append_fresh _ _ _ hnone
  · intro ht
    refine ⟨?_, ?_, ?_⟩
    · simp only [seedMark]
      rw [heq, ht, if_neg (by simp), if_neg (by simp)]
    · simp [getProperty, hnone]
    · intro f2 fv tv out hout hmem
      have := genDiff_keys_subset f2 h id fv tv out hout name hmem
      exact ((lkp_eq_none_iff _ _).1 hnone) this

def hW10 : Heap := fun _ => emptyRep

/-- Witness for C10 at a falsy default-equal value (`0` with default `0`):
no slot is created, `getProperty` answers `undefined`. -/
theorem seed_untracked_only_truthy_witness :
    lkp (hW10 0).dataMap "score" = none ∧
    jsLooseEq (JVal.num 0) (JVal.num 0) = true ∧
    (jsTruthy (JVal.num 0) = false →
       seedMark 2 hW10 0 "score" (JVal.num 0) (JVal.num 0) = hW10 ∧
       getProperty hW10 0 "score" = JVal.undef ∧
       (∀ (f2 fv tv : Nat) (out : List (String × DiffVal)),
          (genDiff f2 hW10 0 fv tv).1 = some out → "score" ∉ keys out)) :=
  ⟨rfl, by decide,
    (seed_untracked_only_truthy 1 hW10 0 "score" (JVal.num 0) (JVal.num 0) rfl (by decide)).2⟩

/-! ### C2 and C3: the concrete {hp, pos} scenario -/

/-- Freshly seeded tracker (id 0) with `hp = 100` and composite `pos`
(child tracker id 1 with `x = 0`, `y = 0`): every slot clean at version 0,
as left by first-use seeding. -/
def hSeedC2 : Heap := fun i =>
  if i = 0 then
    { lastVersion := 0,
      dataMap := [("hp", ⟨false, 0, JVal.num 100⟩), ("pos", ⟨false, 0, JVal.rep 1⟩)],
      hasNewChange := false, outter := none, outterKey := "" }
  else if i = 1 then
    { lastVersion := 0,
      dataMap := [("x", ⟨false, 0, JVal.num 0⟩), ("y", ⟨false, 0, JVal.num 0⟩)],
      hasNewChange := false, outter := some 0, outterKey := "pos" }
  else emptyRep

def c2h1 : Heap := (propertyChanged 3 hSeedC2 0 "hp" (JVal.num 80) false).1

def c2g1 : Option (List (String × DiffVal)) × Heap := genDiff 3 c2h1 0 0 1

def c2h2 : Heap := c2g1.2

def c2h3 : Heap := (propertyChanged 3 c2h2 1 "x" (JVal.num 5) false).1

def c2g2 : Option (List (String × DiffVal)) × Heap := genDiff 3 c2h3 0 1 2

def c2h4 : Heap := c2g2.2

def c2g3 : Option (List (String × DiffVal)) × Heap := genDiff 3 c2h4 0 0 2

def c2h5 : Heap := c2g3.2

def c2y : Heap × Bool := propertyChanged 3 c2h5 1 "y" (JVal.num 7) false

def c2g4 : Option (List (String × DiffVal)) × Heap := genDiff 3 c2y.1 0 3 3

/-- C2 counterexample: after `hp = 80`, `genDiff(0,1)` does NOT return
`{hp: 80}` with `pos` omitted — `pos` has version `0 ≥ fromVersion = 0`,
so it is included verbatim as `{x: 0, y: 0}` for the catching-up
observer. -/
theorem scenario_first_diff_includes_pos :
    c2g1.1 = some [("hp", DiffVal.val (JVal.num 80)),
      ("pos", DiffVal.obj [("x", DiffVal.val (JVal.num 0)), ("y", DiffVal.val (JVal.num 0))])] :=
  rfl

/-- C2 (amended): the actual diffs of the scenario.  `genDiff(0,1)` returns
`{hp: 80, pos: {x: 0, y: 0}}` (version-0 slots are covered by `from = 0`);
after `pos.x = 5`, `genDiff(1,2)` returns `{hp: 80, pos: {x: 5}}` (hp's
version 1 is ≥ `from = 1`, so it is re-sent); the fresh observer's
`genDiff(0,2)` returns `{hp: 80, pos: {x: 5, y: 0}}` exactly as the claim
states. -/
theorem scenario_diffs :
    c2g1.1 = some [("hp", DiffVal.val (JVal.num 80)),
      ("pos", DiffVal.obj [("x", DiffVal.val (JVal.num 0)), ("y", DiffVal.val (JVal.num 0))])] ∧
    c2g2.1 = some [("hp", DiffVal.val (JVal.num 80)),
      ("pos", DiffVal.obj [("x", DiffVal.val (JVal.num 5))])] ∧
    c2g3.1 = some [("hp", DiffVal.val (JVal.num 80)),
      ("pos", DiffVal.obj [("x", DiffVal.val (JVal.num 5)), ("y", DiffVal.val (JVal.num 0))])] :=
  ⟨rfl, rfl, rfl⟩

/-- C3 evaluated at its failing input: after the first `genDiff(0,1)` on
the parent, `lastVersion` is 1 as claimed, but `hasNewChange` is still
`true` — the source never clears it.  Consequently the child's
next-window assignment `pos.y = 7` relays NO notification to the parent
(the claim requires one), and the following `genDiff(3,3)` returns an
empty mapping: the update to `y` is silently lost. -/
theorem genDiff_leaves_pendingNotify_set :
    (c2h2 0).lastVersion = 1 ∧
    (c2h2 0).hasNewChange = true ∧
    c2y.2 = false ∧
    c2g4.1 = some [] :=
  ⟨rfl, rfl, rfl, rfl⟩

/-! ### C6: reparenting a composite child -/

def hC6 : Heap := fun _ => emptyRep

def c6h1 : Heap := (propertyChanged 3 hC6 0 "e" (JVal.rep 2) false).1

def c6h2 : Heap := (propertyChanged 3 c6h1 2 "g" (JVal.num 5) false).1

def c6h3 : Heap := (propertyChanged 3 c6h2 1 "f" (JVal.rep 2) false).1

def c6gB : Option (List (String × DiffVal)) × Heap := genDiff 3 c6h3 1 0 1

def c6gA : Option (List (String × DiffVal)) × Heap := genDiff 3 c6gB.2 0 0 1

/-- C6 counterexample: composite X (id 2, content `g = 5`) is assigned
under A (id 0, key `e`), then before any diff reassigned under B (id 1,
key `f`).  X's parent pointer is rebound to B, and B's next diff includes
X — but A's next diff ALSO includes X under `e`: reassignment only
rebinds the child's notification pointer, it never clears A's slot, which
is still dirty and still references X. -/
theorem reparent_old_parent_diff_includes_child :
    (c6h3 2).outter = some 1 ∧ (c6h3 2).outterKey = "f" ∧
    c6gA.1 = some [("e", DiffVal.obj [("g", DiffVal.val (JVal.num 5))])] :=
  ⟨rfl, rfl, rfl⟩

/-- C6 (amended): after the reassignment, the next diff of B includes X's
content under B's key `f`, and the next diff of A still includes X's
content under A's key `e` as well. -/
theorem reparent_diffs :
    c6gB.1 = some [("f", DiffVal.obj [("g", DiffVal.val (JVal.num 5))])] ∧
    c6gA.1 = some [("e", DiffVal.obj [("g", DiffVal.val (JVal.num 5))])] :=
  ⟨rfl, rfl⟩

/-! ### `applyDiff` (source lines 405-423) -/

/-- Values of the live receiver graph that `applyDiff` merges into: JS
primitives, plain objects (field lists in insertion order), and callable
members (identified by an id; invoking one is recorded, not executed). -/
inductive JSV where
  | num (n : Int)
  | str (s : String)
  | boolV (b : Bool)
  | undef
  | obj (fields : List (String × JSV))
  | func (fid : Nat)

/-- Test `typeof target[propertyName] == "function"` on a lookup result. -/
def isFuncO : Option JSV → Bool
  | some (JSV.func _) => true
  | _ => false

/-- Test `diff[propertyName] instanceof Object`: true for plain objects and
functions. -/
def isObjInst : JSV → Bool
  | JSV.obj _ => true
  | JSV.func _ => true
  | _ => false

/-- The own enumerable fields of a payload (`Object.keys`-visible); empty
for primitives and functions. -/
def objFields : JSV → List (String × JSV)
  | JSV.obj f => f
  | _ => []

/-- The test `target[propertyName] instanceof Object` refined to the mergeable
case: the field list when the (non-callable) member is a plain object,
`none` otherwise.  A callable member never reaches this test — the
`typeof == "function"` branch fires first. -/
def asObjFields : Option JSV → Option (List (String × JSV))
  | some (JSV.obj tf) => some tf
  | _ => none

/-- Assignment `target[propertyName] = v`: overwrite the member in place,
or create it when absent. -/
def setK : List (String × JSV) → String → JSV → List (String × JSV)
  | [], k, v => [(k, v)]
  | (k0, v0) :: rest, k, v =>
    if k0 = k then (k0, v) :: rest else (k0, v0) :: setK rest k v

/-- Model of `applyDiff(diff, target)` (source lines 405-423), fueled against the
nesting depth.  For each diff key in order: a callable member is invoked
with the payload (recorded in the third component) with no structural
write; an object payload merges recursively into an object member, and is
logged and skipped (second component) on a non-object member; any other
payload overwrites the member.  Returns the updated target, the logged
keys, and the recorded invocations. -/
def applyDiff : Nat → List (String × JSV) → List (String × JSV) →
    List (String × JSV) × List String × List (String × JSV)
  | 0, _, t => (t, [], [])
  | _ + 1, [], t => (t, [], [])
  | Nat.succ fuel, (k, p) :: rest, t =>
    if isFuncO (lkp t k) then
      let r := applyDiff fuel rest t
      (r.1, r.2.1, (k, p) :: r.2.2)
    else if isObjInst p then
      match asObjFields (lkp t k) with
      | some tf =>
        let m := applyDiff fuel (objFields p) tf
        let r := applyDiff fuel rest (setK t k (JSV.obj m.1))
        (r.1, m.2.1 ++ r.2.1, m.2.2 ++ r.2.2)
      | none =>
        let r := applyDiff fuel rest t
        (r.1, k :: r.2.1, r.2.2)
    else
      applyDiff fuel rest (setK t k p)

theorem lkp_setK :
    ∀ (t : List (String × JSV)) (k : String) (v : JSV) (k' : String),
      lkp (setK t k v) k' = if k = k' then some v else lkp t k'
  | [], k, v, k' => by
    by_cases hk : k = k' <;> simp [setK, lkp, hk]
  | (k0, v0) :: rest, k, v, k' => by
    by_cases h0 : k0 = k
    · subst h0
      by_cases hk : k0 = k' <;> simp [setK, lkp, hk]
    · by_cases hk : k0 = k'
      · subst hk
        have : ¬ k = k0 := fun he => h0 he.symm
        simp [setK, lkp, h0, this]
      · simp only [setK, if_neg h0, lkp, if_neg hk]
        exact lkp_setK rest k v k'

theorem setK_self :
    ∀ (t : List (String × JSV)) (k : String) (v : JSV),
      lkp t k = some v → setK t k v = t
  | [], k, v, h => by simp [lkp] at h
  | (k0, v0) :: rest, k, v, h => by
    by_cases h0 : k0 = k
    · subst h0
      simp only [lkp, if_pos rfl] at h
      cases h
      simp [setK]
    · simp only [lkp, if_neg h0] at h
      simp only [setK, if_neg h0]
      rw [setK_self rest k v h]

/-- Keys not named by the diff are untouched by `applyDiff`. -/
theorem applyDiff_frame :
    ∀ (fuel : Nat) (d t : List (String × JSV)) (k : String),
      k ∉ keys d → lkp (applyDiff fuel d t).1 k = lkp t k
  | 0, d, t, k, _ => rfl
  | _ + 1, [], t, k, _ => rfl
  | Nat.succ fuel, (k0, p) :: rest, t, k, hk => by
    have hne : k0 ≠ k := fun he => hk (by simp [keys, he])
    have hkr : k ∉ keys rest := fun hm => hk (by simp [keys]; right; simpa [keys] using hm)
    simp only [applyDiff]
    by_cases hfo : isFuncO (lkp t k0)
    · simp only [if_pos hfo]
      exact applyDiff_frame fuel rest t k hkr
    · simp only [if_neg hfo]
      by_cases hop : isObjInst p
      · simp only [if_pos hop]
        cases ha : asObjFields (lkp t k0) with
        | some tf =>
          simp only
          rw [applyDiff_frame fuel rest _ k hkr, lkp_setK, if_neg hne]
        | none =>
          simp only
          exact applyDiff_frame fuel rest t k hkr
      · simp only [if_neg hop]
        rw [applyDiff_frame fuel rest _ k hkr, lkp_setK, if_neg hne]

/-- Well-formed diff mappings: distinct keys at every nesting level, as
`Object.keys` of a JS object guarantees. -/
def wfDiff : Nat → List (String × JSV) → Bool
  | 0, _ => true
  | _ + 1, [] => true
  | Nat.succ fuel, (k, p) :: rest =>
    decide (k ∉ keys rest) && wfDiff fuel (objFields p) && wfDiff fuel rest

/-- The receiver exposes no callable member at any key named by the diff,
recursively through structural merges. -/
def noCallable : Nat → List (String × JSV) → List (String × JSV) → Bool
  | 0, _, _ => true
  | _ + 1, [], _ => true
  | Nat.succ fuel, (k, p) :: rest, t =>
    !isFuncO (lkp t k) &&
    (match p, asObjFields (lkp t k) with
     | JSV.obj pf, some tf => noCallable fuel pf tf
     | _, _ => true) &&
    noCallable fuel rest t

/-- The predicate `noCallable` only inspects the receiver through lookups
at the diff's keys. -/
theorem noCallable_congr :
    ∀ (fuel : Nat) (d t1 t2 : List (String × JSV)),
      (∀ k ∈ keys d, lkp t1 k = lkp t2 k) →
      noCallable fuel d t1 = noCallable fuel d t2
  | 0, _, _, _, _ => rfl
  | _ + 1, [], _, _, _ => rfl
  | Nat.succ fuel, (k, p) :: rest, t1, t2, hlk => by
    have hk : lkp t1 k = lkp t2 k := hlk k (by simp [keys])
    simp only [noCallable, hk]
    rw [noCallable_congr fuel rest t1 t2
      (fun k2 hk2 => hlk k2 (by simp [keys]; right; simpa [keys] using hk2))]

theorem noCallable_nil (fuel : Nat) (t : List (String × JSV)) :
    noCallable fuel [] t = true := by
  cases fuel <;> rfl

/-- C9: applying one diff twice yields the same receiver state as applying
it once, for well-formed diffs over receivers with no callable members at
the diff's keys. -/
theorem applyDiff_idem :
    ∀ (fuel : Nat) (d t : List (String × JSV)),
      wfDiff fuel d = true → noCallable fuel d t = true →
      (applyDiff fuel d (applyDiff fuel d t).1).1 = (applyDiff fuel d t).1
  | 0, d, t, _, _ => rfl
  | _ + 1, [], t, _, _ => rfl
  | Nat.succ fuel, (k, p) :: rest, t, hwf, hnc => by
    simp only [wfDiff, Bool.and_eq_true, decide_eq_true_eq] at hwf
    obtain ⟨⟨hknr, hwp⟩, hwr⟩ := hwf
    simp only [noCallable, Bool.and_eq_true, Bool.not_eq_true'] at hnc
    obtain ⟨⟨hnf, hmc⟩, hnr⟩ := hnc
    by_cases hop : isObjInst p
    · cases ha : asObjFields (lkp t k) with
      | some tf =>
        have hpf : noCallable fuel (objFields p) tf = true := by
          cases p with
          | obj pf => rw [ha] at hmc; simpa [objFields] using hmc
          | func fid => exact noCallable_nil fuel tf
          | num n => simp [isObjInst] at hop
          | str s => simp [isObjInst] at hop
          | boolV b => simp [isObjInst] at hop
          | undef => simp [isObjInst] at hop
        have hm := applyDiff_idem fuel (objFields p) tf hwp hpf
        have hFt : (applyDiff (fuel + 1) ((k, p) :: rest) t).1
            = (applyDiff fuel rest (setK t k (JSV.obj (applyDiff fuel (objFields p) tf).1))).1 := by
          simp [applyDiff, hnf, hop, ha]
        have hlX : lkp (applyDiff (fuel + 1) ((k, p) :: rest) t).1 k
            = some (JSV.obj (applyDiff fuel (objFields p) tf).1) := by
          rw [hFt, applyDiff_frame fuel rest _ k hknr, lkp_setK, if_pos rfl]
        have hnct : noCallable fuel rest
            (setK t k (JSV.obj (applyDiff fuel (objFields p) tf).1)) = true := by
          rw [noCallable_congr fuel rest _ t
            (fun k2 hk2 => by
              rw [lkp_setK, if_neg (by intro he; subst he; exact hknr hk2)])]
          exact hnr
        have hsecond : ∀ X : List (String × JSV),
            lkp X k = some (JSV.obj (applyDiff fuel (objFields p) tf).1) →
            (applyDiff (fuel + 1) ((k, p) :: rest) X).1 = (applyDiff fuel rest X).1 := by
          intro X hX
          simp [applyDiff, hX, isFuncO, asObjFields, hop, hm, setK_self _ _ _ hX]
        rw [hsecond _ hlX, hFt]
        exact applyDiff_idem fuel rest _ hwr hnct
      | none =>
        have hFt : (applyDiff (fuel + 1) ((k, p) :: rest) t).1
            = (applyDiff fuel rest t).1 := by
          simp [applyDiff, hnf, hop, ha]
        have hlX : lkp (applyDiff (fuel + 1) ((k, p) :: rest) t).1 k = lkp t k := by
          rw [hFt, applyDiff_frame fuel rest t k hknr]
        have hsecond : ∀ X : List (String × JSV), lkp X k = lkp t k →
            (applyDiff (fuel + 1) ((k, p) :: rest) X).1 = (applyDiff fuel rest X).1 := by
          intro X hX
          simp [applyDiff, hX, hnf, hop, ha]
        rw [hsecond _ hlX, hFt]
        exact applyDiff_idem fuel rest t hwr hnr
    · have hpnf : isFuncO (some p) = false := by
        cases p <;> simp_all [isObjInst, isFuncO]
      have hFt : (applyDiff (fuel + 1) ((k, p) :: rest) t).1
          = (applyDiff fuel rest (setK t k p)).1 := by
        simp [applyDiff, hnf, hop]
      have hlX : lkp (applyDiff (fuel + 1) ((k, p) :: rest) t).1 k = some p := by
        rw [hFt, applyDiff_frame fuel rest _ k hknr, lkp_setK, if_pos rfl]
      have hnct : noCallable fuel rest (setK t k p) = true := by
        rw [noCallable_congr fuel rest _ t
          (fun k2 hk2 => by
            rw [lkp_setK, if_neg (by intro he; subst he; exact hknr hk2)])]
        exact hnr
      have hsecond : ∀ X : List (String × JSV), lkp X k = some p →
          (applyDiff (fuel + 1) ((k, p) :: rest) X).1 = (applyDiff fuel rest X).1 := by
        intro X hX
        simp [applyDiff, hX, hpnf, hop, setK_self _ _ _ hX]
      rw [hsecond _ hlX, hFt]
      exact applyDiff_idem fuel rest _ hwr hnct

/-- C8: per-key behaviour of `applyDiff`.  With `k` not recurring later in
the diff: a callable member is invoked with the payload and no structural
write occurs for that key; an object payload merges recursively into an
object member; an object payload on a non-object member logs the key and
skips it while the remaining keys are still applied; and any other payload
overwrites the member directly. -/
theorem applyDiff_per_key (fuel : Nat) (k : String) (p : JSV)
    (rest t : List (String × JSV)) (hkr : k ∉ keys rest) :
    (∀ f, lkp t k = some (JSV.func f) →
       (applyDiff (fuel + 1) ((k, p) :: rest) t).1 = (applyDiff fuel rest t).1 ∧
       lkp (applyDiff (fuel + 1) ((k, p) :: rest) t).1 k = some (JSV.func f) ∧
       (k, p) ∈ (applyDiff (fuel + 1) ((k, p) :: rest) t).2.2) ∧
    (∀ tf, isFuncO (lkp t k) = false → isObjInst p = true →
       lkp t k = some (JSV.obj tf) →
       lkp (applyDiff (fuel + 1) ((k, p) :: rest) t).1 k
         = some (JSV.obj (applyDiff fuel (objFields p) tf).1)) ∧
    (isFuncO (lkp t k) = false → isObjInst p = true → asObjFields (lkp t k) = none →
       k ∈ (applyDiff (fuel + 1) ((k, p) :: rest) t).2.1 ∧
       lkp (applyDiff (fuel + 1) ((k, p) :: rest) t).1 k = lkp t k ∧
       (applyDiff (fuel + 1) ((k, p) :: rest) t).1 = (applyDiff fuel rest t).1) ∧
    (isFuncO (lkp t k) = false → isObjInst p = false →
       lkp (applyDiff (fuel + 1) ((k, p) :: rest) t).1 k = some p) := by
  refine ⟨?_, ?_, ?_, ?_⟩
  · intro f hl
    have hfo : isFuncO (lkp t k) = true := by rw [hl]; rfl
    have h1 : applyDiff (fuel + 1) ((k, p) :: rest) t
        = ((applyDiff fuel rest t).1, (applyDiff fuel rest t).2.1,
            (k, p) :: (applyDiff fuel rest t).2.2) := by
      simp [applyDiff, hfo]
    rw [h1]
    exact ⟨rfl, (applyDiff_frame fuel rest t k hkr).trans hl, by simp⟩
  · intro tf hnf hop hl
    have ha : asObjFields (lkp t k) = some tf := by rw [hl]; rfl
    have h1 : (applyDiff (fuel + 1) ((k, p) :: rest) t).1
        = (applyDiff fuel rest (setK t k (JSV.obj (applyDiff fuel (objFields p) tf).1))).1 := by
      simp [applyDiff, hnf, hop, ha]
    rw [h1, applyDiff_frame fuel rest _ k hkr, lkp_setK, if_pos rfl]
  · intro hnf hop ha
    have h1 : applyDiff (fuel + 1) ((k, p) :: rest) t
        = ((applyDiff fuel rest t).1, k :: (applyDiff fuel rest t).2.1,
            (applyDiff fuel rest t).2.2) := by
      simp [applyDiff, hnf, hop, ha]
    rw [h1]
    exact ⟨by simp, applyDiff_frame fuel rest t k hkr, rfl⟩
  · intro hnf hopn
    have h1 : (applyDiff (fuel + 1) ((k, p) :: rest) t).1
        = (applyDiff fuel rest (setK t k p)).1 := by
      simp [applyDiff, hnf, hopn]
    rw [h1, applyDiff_frame fuel rest _ k hkr, lkp_setK, if_pos rfl]

/-- Witness for C8 at a concrete one-key tail. -/
theorem applyDiff_per_key_witness :
    "a" ∉ keys [("b", JSV.num 6)] ∧
    ((∀ f, lkp [("b", JSV.num 1)] "a" = some (JSV.func f) →
        (applyDiff 2 (("a", JSV.num 5) :: [("b", JSV.num 6)]) [("b", JSV.num 1)]).1
          = (applyDiff 1 [("b", JSV.num 6)] [("b", JSV.num 1)]).1 ∧
        lkp (applyDiff 2 (("a", JSV.num 5) :: [("b", JSV.num 6)]) [("b", JSV.num 1)]).1 "a"
          = some (JSV.func f) ∧
        ("a", JSV.num 5) ∈ (applyDiff 2 (("a", JSV.num 5) :: [("b", JSV.num 6)])
          [("b", JSV.num 1)]).2.2) ∧
     (∀ tf, isFuncO (lkp [("b", JSV.num 1)] "a") = false →
        isObjInst (JSV.num 5) = true →
        lkp [("b", JSV.num 1)] "a" = some (JSV.obj tf) →
        lkp (applyDiff 2 (("a", JSV.num 5) :: [("b", JSV.num 6)]) [("b", JSV.num 1)]).1 "a"
          = some (JSV.obj (applyDiff 1 (objFields (JSV.num 5)) tf).1)) ∧
     (isFuncO (lkp [("b", JSV.num 1)] "a") = false →
        isObjInst (JSV.num 5) = true →
        asObjFields (lkp [("b", JSV.num 1)] "a") = none →
        "a" ∈ (applyDiff 2 (("a", JSV.num 5) :: [("b", JSV.num 6)]) [("b", JSV.num 1)]).2.1 ∧
        lkp (applyDiff 2 (("a", JSV.num 5) :: [("b", JSV.num 6)]) [("b", JSV.num 1)]).1 "a"
          = lkp [("b", JSV.num 1)] "a" ∧
        (applyDiff 2 (("a", JSV.num 5) :: [("b", JSV.num 6)]) [("b", JSV.num 1)]).1
          = (applyDiff 1 [("b", JSV.num 6)] [("b", JSV.num 1)]).1) ∧
     (isFuncO (lkp [("b", JSV.num 1)] "a") = false →
        isObjInst (JSV.num 5) = false →
        lkp (applyDiff 2 (("a", JSV.num 5) :: [("b", JSV.num 6)]) [("b", JSV.num 1)]).1 "a"
          = some (JSV.num 5))) :=
  ⟨by decide,
    applyDiff_per_key 1 "a" (JSV.num 5) [("b", JSV.num 6)] [("b", JSV.num 1)] (by decide)⟩

def dW9 : List (String × JSV) := [("a", JSV.num 1), ("o", JSV.obj [("x", JSV.num 2)])]

def tW9 : List (String × JSV) :=
  [("o", JSV.obj [("x", JSV.num 9), ("y", JSV.num 3)]), ("a", JSV.str "old")]

/-- Witness for C9: a diff with one scalar and one nested mapping applied
twice to a concrete receiver. -/
theorem applyDiff_idem_witness :
    wfDiff 3 dW9 = true ∧ noCallable 3 dW9 tW9 = true ∧
    (applyDiff 3 dW9 (applyDiff 3 dW9 tW9).1).1 = (applyDiff 3 dW9 tW9).1 :=
  ⟨by decide, by decide, applyDiff_idem 3 dW9 tW9 (by decide) (by decide)⟩
